import Mathlib

/-! AtomicObject (cquery/src/atomic_object.h)

A shallow embedding of the template struct AtomicObject<T>: one data member
value_ (a std::unique_ptr<T>), guarded by mutex_, with the condition variable
cv_ used by Take to wait for a value.

* A std::unique_ptr<T> is an Option T: none is the null pointer, some v owns v.
* Each member function body that runs with mutex_ held is a pure function from
  the object before to a record Crit: the object after, the number of
  cv_.notify_one() calls executed, and the value handed back.
* The action handed to WithLock is caller code: it may change value_ and then
  return or throw. It is a function from the pointer it finds to the pointer it
  leaves and the way it left (Exit). It is taken to come back one way or the
  other: an action that blocks or calls back into the same object keeps mutex_
  for ever and no member function completes after it.
* Take is a loop around cv_.wait; Take_iter is one pass of it with the lock
  held, Take runs it in a single thread, and step runs all four member
  functions from any number of threads, one critical section per step.
-/

/-- The data member value_ of AtomicObject<T>: null (none) or owning (some v). -/
structure AtomicObject (T : Type) where
  value_ : Option T

namespace AtomicObject

/-- What a critical section has done when mutex_ is released: the object it
leaves, how many times it called cv_.notify_one(), and what it hands back. -/
structure Crit (T : Type) (R : Type) where
  self : AtomicObject T
  notified : Nat
  result : R

/-- Set, lines 11-15: value_ = std::move(t); cv_.notify_one(). The argument is a
unique_ptr and may be null. -/
def Set {T : Type} (_self : AtomicObject T) (t : Option T) : Crit T Unit :=
  { self := { value_ := t }, notified := 1, result := () }

/-- SetIfEmpty, lines 17-24: if (value_) return; then as Set. -/
def SetIfEmpty {T : Type} (self : AtomicObject T) (t : Option T) : Crit T Unit :=
  if self.value_.isSome then
    { self := self, notified := 0, result := () }
  else
    { self := { value_ := t }, notified := 1, result := () }

/-- One pass of Take, lines 28-33, with the lock held: while (!value_) the
thread goes into cv_.wait (result none, object untouched); otherwise it returns
std::move(value_), which leaves value_ null. Take never calls notify_one. -/
def Take_iter {T : Type} (self : AtomicObject T) : Crit T (Option (Option T)) :=
  if !self.value_.isSome then
    { self := self, notified := 0, result := none }
  else
    { self := { value_ := none }, notified := 0, result := some self.value_ }

/-- Take, lines 26-34, run in a single thread. Nothing else touches the object,
so a thread that comes back from cv_.wait finds it as it left it; fuel bounds
the number of such wake-ups, and none means the call is still waiting. -/
def Take {T : Type} : Nat → AtomicObject T → Option (Crit T (Option T))
  | 0, self =>
    match self.Take_iter.result with
    | some r => some { self := self.Take_iter.self, notified := self.Take_iter.notified, result := r }
    | none => none
  | fuel + 1, self =>
    match self.Take_iter.result with
    | some r => some { self := self.Take_iter.self, notified := self.Take_iter.notified, result := r }
    | none => Take fuel self.Take_iter.self

/-- How the action handed to WithLock leaves: by returning or by an exception. -/
inductive Exit where
  | returned : Exit
  | threw : Exit
  deriving DecidableEq

/-- WithLock, lines 36-45: had_value, action(value_), has_value, and one
notify_one when the two flags differ. The action receives value_ by reference:
it yields the pointer it leaves in value_ and the way it left. When it throws at
line 40, unwinding releases the unique_lock, lines 41-44 do not run (no
notify_one), value_ keeps what the action stored, and the exception goes on to
the caller of WithLock. -/
def WithLock {T : Type} (self : AtomicObject T) (action : Option T → Option T × Exit) :
    Crit T Exit :=
  let had_value := self.value_.isSome
  match action self.value_ with
  | (value_, .threw) => { self := { value_ := value_ }, notified := 0, result := .threw }
  | (value_, .returned) =>
    let has_value := value_.isSome
    { self := { value_ := value_ },
      notified := if had_value != has_value then 1 else 0,
      result := .returned }

/-! ## Threads

Every member function takes mutex_ first, so critical sections do not overlap:
an execution is a sequence of steps, each one critical section run to the
point where the lock is released (at return, or inside cv_.wait).
-/

/-- Where a thread that has called Take stands between two steps. -/
inductive Pc (T : Type) where
  /-- Inside cv_.wait: lock released, blocked on cv_. -/
  | parked : Pc T
  /-- Unblocked, by notify_one or spuriously, and about to take the lock again
  to test value_ once more. -/
  | woken : Pc T
  /-- Take has returned this pointer. -/
  | done (r : Option T) : Pc T
  deriving DecidableEq

/-- Tests for the parked state. -/
def Pc.isParked {T : Type} : Pc T → Bool
  | .parked => true
  | _ => false

/-- Tests for the woken state. -/
def Pc.isWoken {T : Type} : Pc T → Bool
  | .woken => true
  | _ => false

/-- Tests whether the call has returned. -/
def Pc.isDone {T : Type} : Pc T → Bool
  | .done _ => true
  | _ => false

/-- The object together with one entry per call of Take made so far. -/
structure Sys (T : Type) where
  obj : AtomicObject T
  takers : List (Pc T)

/-- A freshly constructed object: value_ is null and nobody has called Take. -/
def init {T : Type} : Sys T :=
  { obj := { value_ := none }, takers := [] }

/-- Number of threads blocked on cv_. -/
def countParked {T : Type} (pcs : List (Pc T)) : Nat :=
  pcs.countP Pc.isParked

/-- Unblocks the n-th parked thread, counting from 0. -/
def wakeNth {T : Type} : List (Pc T) → Nat → List (Pc T)
  | [], _ => []
  | .parked :: rest, 0 => .woken :: rest
  | .parked :: rest, n + 1 => .parked :: wakeNth rest n
  | .woken :: rest, n => .woken :: wakeNth rest n
  | .done r :: rest, n => .done r :: wakeNth rest n

/-- The call cv_.notify_one(): when threads are blocked on cv_ exactly one of
them is unblocked, which one being up to the scheduler (choice); when none is
blocked nothing happens. -/
def notify_one {T : Type} (pcs : List (Pc T)) (choice : Nat) : List (Pc T) :=
  wakeNth pcs (choice % countParked pcs)

/-- The notify_one calls of a critical section, in order. -/
def signal {T : Type} : Nat → Nat → List (Pc T) → List (Pc T)
  | 0, _, pcs => pcs
  | n + 1, choice, pcs => signal n choice (notify_one pcs choice)

/-- One scheduler decision. -/
inductive Event (T : Type) where
  /-- Some thread runs Set(t). -/
  | set (t : Option T) (choice : Nat) : Event T
  /-- Some thread runs SetIfEmpty(t). -/
  | setIfEmpty (t : Option T) (choice : Nat) : Event T
  /-- Some thread runs WithLock(action). -/
  | withLock (action : Option T → Option T × Exit) (choice : Nat) : Event T
  /-- A thread calls Take: it locks and makes its first test of value_. -/
  | take : Event T
  /-- The parked call number i wakes up with no notify_one (spurious wake-up). -/
  | wakeup (i : Nat) : Event T
  /-- The woken call number i gets the lock back and tests value_ again. -/
  | recheck (i : Nat) : Event T

/-- End of a critical section of Set, SetIfEmpty or WithLock. -/
def release {T R : Type} (c : Crit T R) (choice : Nat) (takers : List (Pc T)) : Sys T :=
  { obj := c.self, takers := signal c.notified choice takers }

/-- Where a pass of the loop of Take leaves its thread. -/
def pcAfter {T : Type} : Option (Option T) → Pc T
  | none => .parked
  | some r => .done r

/-- One step. A wakeup or recheck addressed to a call that is not in the
matching state changes nothing. -/
def step {T : Type} (s : Sys T) : Event T → Sys T
  | .set t choice => release (s.obj.Set t) choice s.takers
  | .setIfEmpty t choice => release (s.obj.SetIfEmpty t) choice s.takers
  | .withLock action choice => release (s.obj.WithLock action) choice s.takers
  | .take =>
    { obj := s.obj.Take_iter.self, takers := s.takers ++ [pcAfter s.obj.Take_iter.result] }
  | .wakeup i =>
    match s.takers[i]? with
    | some .parked => { obj := s.obj, takers := s.takers.set i .woken }
    | _ => s
  | .recheck i =>
    match s.takers[i]? with
    | some .woken =>
      { obj := s.obj.Take_iter.self, takers := s.takers.set i (pcAfter s.obj.Take_iter.result) }
    | _ => s

/-- An interleaving: the steps of a schedule, in order. -/
def run {T : Type} (s : Sys T) (es : List (Event T)) : Sys T :=
  es.foldl step s

/-- Whether call number i of Take has returned. -/
def returnedAt {T : Type} (s : Sys T) (i : Nat) : Bool :=
  match s.takers[i]? with
  | some (.done _) => true
  | _ => false

/-- Number of calls of Take that have returned. -/
def returned {T : Type} (s : Sys T) : Nat :=
  s.takers.countP Pc.isDone

/-- One when value_ is non-null, zero otherwise. -/
def occupied {T : Type} (s : Sys T) : Nat :=
  if s.obj.value_.isSome then 1 else 0

/-- The step takes value_ from null to non-null. -/
def fills {T : Type} (s : Sys T) (e : Event T) : Bool :=
  !s.obj.value_.isSome && (step s e).obj.value_.isSome

/-- The step stores a value in value_: a Set of a non-null pointer, a
SetIfEmpty of a non-null pointer on a null value_, or a WithLock whose action
leaves value_ non-null (whether it returns or throws). -/
def places {T : Type} (s : Sys T) : Event T → Bool
  | .set t _ => t.isSome
  | .setIfEmpty t _ => !s.obj.value_.isSome && t.isSome
  | .withLock action _ => (action s.obj.value_).1.isSome
  | _ => false

/-- Number of steps of the schedule that fill a null value_. -/
def filled {T : Type} : Sys T → List (Event T) → Nat
  | _, [] => 0
  | s, e :: es => (if fills s e then 1 else 0) + filled (step s e) es

/-- Number of steps of the schedule that store a value. -/
def placed {T : Type} : Sys T → List (Event T) → Nat
  | _, [] => 0
  | s, e :: es => (if places s e then 1 else 0) + placed (step s e) es

/-- The step stores the value v in value_. -/
def Puts {T : Type} (s : Sys T) (e : Event T) (v : T) : Prop :=
  match e with
  | .set t _ => t = some v
  | .setIfEmpty t _ => s.obj.value_ = none ∧ t = some v
  | .withLock action _ => (action s.obj.value_).1 = some v
  | _ => False

/-- The step is a WithLock whose action stores a value in a null value_ and
then throws. -/
def throwsAfterFilling {T : Type} (s : Sys T) : Event T → Bool
  | .withLock action _ =>
    !s.obj.value_.isSome && (action s.obj.value_).1.isSome &&
      decide ((action s.obj.value_).2 = .threw)
  | _ => false

/-- No step of the schedule is a WithLock whose action stores a value in a null
value_ and then throws. -/
def noThrowAfterFilling {T : Type} : Sys T → List (Event T) → Bool
  | _, [] => true
  | s, e :: es => !throwsAfterFilling s e && noThrowAfterFilling (step s e) es

/-- No lost wake-up: when value_ is non-null and some call of Take is parked,
some call is woken and has yet to test value_. -/
def NoLostWakeup {T : Type} (s : Sys T) : Prop :=
  s.obj.value_.isSome = true → s.takers.any Pc.isParked = true →
    s.takers.any Pc.isWoken = true

/-- The presence of a value goes from absent to present. -/
def becamePresent {T : Type} (before after : AtomicObject T) : Bool :=
  !before.value_.isSome && after.value_.isSome

/-- The presence of a value differs before and after, in either direction. -/
def presenceChanged {T : Type} (before after : AtomicObject T) : Bool :=
  before.value_.isSome != after.value_.isSome

/-! ## Single-threaded sequences -/

/-- In a single thread Take on an empty object never returns, whatever the
number of wake-ups. -/
theorem Take_empty_waits {T : Type} (fuel : Nat) :
    Take fuel ({ value_ := none } : AtomicObject T) = none := by
  induction fuel with
  | zero => simp [Take, Take_iter]
  | succ n ih => simpa [Take, Take_iter] using ih

/-- Take has no call of notify_one. -/
theorem Take_notified {T : Type} (fuel : Nat) (self : AtomicObject T) (c : Crit T (Option T))
    (h : Take fuel self = some c) : c.notified = 0 := by
  induction fuel generalizing self with
  | zero =>
    rcases self with ⟨_ | w⟩
    · simp [Take, Take_iter] at h
    · simp [Take, Take_iter] at h
      rw [← h]
  | succ n ih =>
    rcases self with ⟨_ | w⟩
    · simp [Take, Take_iter] at h
      exact ih _ h
    · simp [Take, Take_iter] at h
      rw [← h]

/-- C1. For every value v and every initial object, empty or occupied, Set(v)
followed by Take() in one thread returns at once (with no wake-up at all, for
every fuel), the pointer returned owns v, and value_ is null afterwards. -/
theorem Set_then_Take {T : Type} (self : AtomicObject T) (v : T) (fuel : Nat) :
    Take fuel (self.Set (some v)).self
      = some { self := { value_ := none }, notified := 0, result := some v } := by
  cases fuel <;> simp [Take, Take_iter, Set]

/-- C2. From an empty object, SetIfEmpty(v1), SetIfEmpty(v2), Take() returns a
pointer owning v1, for every fuel, and so never one owning a different v2; the
second SetIfEmpty leaves value_ as it was and does not notify. -/
theorem SetIfEmpty_first_write_wins {T : Type} (v1 v2 : T) (fuel : Nat) :
    ((SetIfEmpty { value_ := none } (some v1)).self.SetIfEmpty (some v2)).self
      = { value_ := some v1 } ∧
    ((SetIfEmpty { value_ := none } (some v1)).self.SetIfEmpty (some v2)).notified = 0 ∧
    Take fuel ((SetIfEmpty { value_ := none } (some v1)).self.SetIfEmpty (some v2)).self
      = some { self := { value_ := none }, notified := 0, result := some v1 } ∧
    (v1 ≠ v2 → ∀ c,
      Take fuel ((SetIfEmpty { value_ := none } (some v1)).self.SetIfEmpty (some v2)).self
        = some c → c.result ≠ some v2) := by
  have h : Take fuel (SetIfEmpty (SetIfEmpty { value_ := none } (some v1)).self (some v2)).self
      = some { self := { value_ := none }, notified := 0, result := some v1 } := by
    cases fuel <;> simp [Take, Take_iter, SetIfEmpty]
  refine ⟨by simp [SetIfEmpty], by simp [SetIfEmpty], h, ?_⟩
  intro hne c hc
  rw [h] at hc
  cases hc
  simpa using hne

/-- Instance of C2 at v1 = 1, v2 = 2, fuel 0. -/
theorem SetIfEmpty_first_write_wins_witness :
    Take 0 (SetIfEmpty (SetIfEmpty { value_ := none } (some 1)).self (some 2)).self
      = some { self := { value_ := none }, notified := 0, result := some 1 } ∧
    ∀ c, Take 0 (SetIfEmpty (SetIfEmpty { value_ := none } (some 1)).self (some 2)).self = some c →
      c.result ≠ some 2 :=
  ⟨(SetIfEmpty_first_write_wins 1 2 0).2.2.1,
   (SetIfEmpty_first_write_wins 1 2 0).2.2.2 (by decide)⟩

/-- C3. For every pair of values and every initial object, Set(v1), Set(v2),
Take() returns a pointer owning v2, for every fuel; the second Set leaves
exactly v2 in value_, the earlier value being dropped. -/
theorem Set_last_write_wins {T : Type} (self : AtomicObject T) (v1 v2 : T) (fuel : Nat) :
    ((self.Set (some v1)).self.Set (some v2)).self = { value_ := some v2 } ∧
    Take fuel ((self.Set (some v1)).self.Set (some v2)).self
      = some { self := { value_ := none }, notified := 0, result := some v2 } := by
  constructor
  · simp [Set]
  · cases fuel <;> simp [Take, Take_iter, Set]

/-- C4. On an object holding w, SetIfEmpty of any pointer leaves value_ holding
exactly w and calls notify_one zero times. -/
theorem SetIfEmpty_occupied {T : Type} (w : T) (t : Option T) :
    (SetIfEmpty { value_ := some w } t).self = { value_ := some w } ∧
    (SetIfEmpty { value_ := some w } t).notified = 0 := by
  simp [SetIfEmpty]

/-- C5. On an empty object SetIfEmpty(v) and Set(v) agree: the same critical
section outcome, with value_ holding v and exactly one notify_one. -/
theorem SetIfEmpty_empty_eq_Set {T : Type} (v : T) :
    SetIfEmpty { value_ := none } (some v) = Set { value_ := none } (some v) ∧
    (SetIfEmpty { value_ := none } (some v)).self = { value_ := some v } ∧
    (SetIfEmpty { value_ := none } (some v)).notified = 1 ∧
    (Set ({ value_ := none } : AtomicObject T) (some v)).notified = 1 := by
  simp [SetIfEmpty, Set]

theorem WithLock_self {T : Type} (self : AtomicObject T)
    (action : Option T → Option T × Exit) :
    (self.WithLock action).self = { value_ := (action self.value_).1 } := by
  unfold WithLock
  rcases action self.value_ with ⟨v, _ | _⟩ <;> rfl

theorem WithLock_result {T : Type} (self : AtomicObject T)
    (action : Option T → Option T × Exit) :
    (self.WithLock action).result = (action self.value_).2 := by
  unfold WithLock
  rcases action self.value_ with ⟨v, _ | _⟩ <;> rfl

theorem WithLock_notified_returned {T : Type} (self : AtomicObject T)
    (action : Option T → Option T × Exit) (h : (action self.value_).2 = .returned) :
    (self.WithLock action).notified
      = if self.value_.isSome != (action self.value_).1.isSome then 1 else 0 := by
  unfold WithLock
  rcases hx : action self.value_ with ⟨v, _ | _⟩
  · rfl
  · rw [hx] at h
    cases h

theorem WithLock_notified_threw {T : Type} (self : AtomicObject T)
    (action : Option T → Option T × Exit) (h : (action self.value_).2 = .threw) :
    (self.WithLock action).notified = 0 := by
  unfold WithLock
  rcases hx : action self.value_ with ⟨v, _ | _⟩
  · rw [hx] at h
    cases h
  · rfl

/-- C6, the claim as written fails for an action that throws: on an empty
object, an action that stores 5 and then throws leaves value_ holding 5, so
presence has changed, and WithLock calls notify_one zero times. -/
theorem WithLock_throw_no_signal :
    ¬ ((WithLock ({ value_ := none } : AtomicObject Nat) (fun _ => (some 5, .threw))).notified ≠ 0 ↔
        presenceChanged ({ value_ := none } : AtomicObject Nat)
          (WithLock { value_ := none } (fun _ => (some 5, .threw))).self = true) := by
  decide

/-- C6 as amended. For every object and every action, WithLock(action) leaves
value_ exactly as the action left it and leaves the way the action left. When
the action returns, WithLock calls notify_one once when the presence of a value
before and after differ and not at all when they agree. When the action throws,
WithLock does not call notify_one, whatever happened to presence. Replacing one
value by another raises no signal either way. -/
theorem WithLock_signals_on_presence_change {T : Type} (self : AtomicObject T)
    (action : Option T → Option T × Exit) :
    (self.WithLock action).self = { value_ := (action self.value_).1 } ∧
    (self.WithLock action).result = (action self.value_).2 ∧
    ((action self.value_).2 = .returned →
      ((self.WithLock action).notified = 1 ↔
        self.value_.isSome ≠ (action self.value_).1.isSome) ∧
      ((self.WithLock action).notified = 0 ↔
        self.value_.isSome = (action self.value_).1.isSome)) ∧
    ((action self.value_).2 = .threw → (self.WithLock action).notified = 0) ∧
    (∀ w w2 : T, self.value_ = some w → (action (some w)).1 = some w2 →
      (self.WithLock action).notified = 0) := by
  refine ⟨WithLock_self self action, WithLock_result self action, ?_,
    WithLock_notified_threw self action, ?_⟩
  · intro h
    rw [WithLock_notified_returned self action h]
    constructor
    · split <;> simp_all
    · split <;> simp_all
  · intro w w2 h1 h2
    cases hx : (action self.value_).2 with
    | threw => exact WithLock_notified_threw self action hx
    | returned =>
      rw [WithLock_notified_returned self action hx]
      simp [h1, h2]

/-- Instance of C6: an action that returns after storing 4 in an empty object
raises one signal; one that throws after storing 4 raises none; replacing 1 by
2 raises none. -/
theorem WithLock_signals_on_presence_change_witness :
    ((WithLock ({ value_ := none } : AtomicObject Nat) (fun _ => (some 4, .returned))).notified = 1 ↔
      (none : Option Nat).isSome ≠ (some 4).isSome) ∧
    (WithLock ({ value_ := none } : AtomicObject Nat) (fun _ => (some 4, .threw))).notified = 0 ∧
    (WithLock { value_ := some 1 } (fun _ => (some 2, .returned))).notified = 0 :=
  ⟨((WithLock_signals_on_presence_change { value_ := none }
      (fun _ => (some 4, .returned))).2.2.1 rfl).1,
   (WithLock_signals_on_presence_change { value_ := none }
      (fun _ => (some 4, .threw))).2.2.2.1 rfl,
   (WithLock_signals_on_presence_change { value_ := some 1 }
      (fun _ => (some 2, .returned))).2.2.2.2 1 2 rfl rfl⟩

/-- C7, the claim as written fails for Set: on an object that already holds 0,
Set(1) calls notify_one although presence does not go from absent to present. -/
theorem Set_signals_without_transition :
    ¬ ((Set { value_ := some 0 } (some 1)).notified ≠ 0 ↔
        becamePresent ({ value_ := some 0 } : AtomicObject Nat)
          (Set { value_ := some 0 } (some 1)).self = true) := by
  decide

/-- SetIfEmpty of a null pointer on an empty object calls notify_one although
value_ stays null. -/
theorem SetIfEmpty_null_signals :
    (SetIfEmpty ({ value_ := none } : AtomicObject Nat) none).notified = 1 ∧
    becamePresent ({ value_ := none } : AtomicObject Nat)
      (SetIfEmpty { value_ := none } none).self = false := by
  decide

/-- C7 as amended. Set calls notify_one exactly once on every call, whatever
the object held and whatever the pointer, hence in particular whenever presence
goes from absent to present. SetIfEmpty calls it once when the object was empty
before the call and not at all otherwise, for every pointer, null included; so
it calls it whenever presence goes from absent to present, and for a non-null
pointer only then. WithLock calls it once when its action returns and presence
has changed in either direction, and not at all when presence is unchanged or
the action throws. Take never calls it. -/
theorem signals_I2 {T : Type} :
    (∀ (self : AtomicObject T) (t : Option T), (self.Set t).notified = 1) ∧
    (∀ (self : AtomicObject T) (t : Option T),
      ((self.SetIfEmpty t).notified = 1 ↔ self.value_ = none) ∧
      ((self.SetIfEmpty t).notified = 0 ↔ self.value_ ≠ none) ∧
      (becamePresent self (self.SetIfEmpty t).self = true →
        (self.SetIfEmpty t).notified = 1)) ∧
    (∀ (self : AtomicObject T) (v : T),
      ((self.SetIfEmpty (some v)).notified = 1 ↔
        becamePresent self (self.SetIfEmpty (some v)).self = true) ∧
      ((self.SetIfEmpty (some v)).notified = 0 ↔
        becamePresent self (self.SetIfEmpty (some v)).self = false) ∧
      (becamePresent self (self.SetIfEmpty (some v)).self = true ↔ self.value_ = none)) ∧
    (∀ (self : AtomicObject T) (action : Option T → Option T × Exit),
      ((self.WithLock action).notified = 1 ↔
        ((action self.value_).2 = .returned ∧
          presenceChanged self (self.WithLock action).self = true)) ∧
      ((self.WithLock action).notified = 0 ↔
        ((action self.value_).2 = .threw ∨
          presenceChanged self (self.WithLock action).self = false))) ∧
    (∀ self : AtomicObject T, self.Take_iter.notified = 0) ∧
    (∀ (fuel : Nat) (self : AtomicObject T) (c : Crit T (Option T)),
      Take fuel self = some c → c.notified = 0) := by
  refine ⟨fun _ _ => rfl, ?_, ?_, ?_, ?_, Take_notified⟩
  · intro self t
    rcases self with ⟨_ | w⟩ <;> simp [SetIfEmpty, becamePresent]
  · intro self v
    rcases self with ⟨_ | w⟩ <;> simp [SetIfEmpty, becamePresent]
  · intro self action
    simp only [presenceChanged, WithLock_self]
    cases hx : (action self.value_).2 with
    | threw => simp [WithLock_notified_threw self action hx]
    | returned =>
      rw [WithLock_notified_returned self action hx]
      constructor
      · split <;> simp_all
      · split <;> simp_all
  · intro self
    simp only [Take_iter]
    split <;> rfl

/-- Instance of C7: SetIfEmpty(5) on an empty object takes presence from absent
to present and signals once; the Take that follows returns with no notify_one. -/
theorem signals_I2_witness :
    (SetIfEmpty ({ value_ := none } : AtomicObject Nat) (some 5)).notified = 1 ∧
    (⟨⟨none⟩, 0, some 5⟩ : Crit Nat (Option Nat)).notified = 0 :=
  ⟨((@signals_I2 Nat).2.1 { value_ := none } (some 5)).2.2 (by decide),
   (@signals_I2 Nat).2.2.2.2.2 0 { value_ := some 5 } ⟨⟨none⟩, 0, some 5⟩ rfl⟩

/-! ## Interleavings: notify_one -/

theorem wakeNth_getElem_done {T : Type} (pcs : List (Pc T)) (n i : Nat) (r : Option T) :
    (wakeNth pcs n)[i]? = some (.done r) ↔ pcs[i]? = some (.done r) := by
  induction pcs generalizing n i with
  | nil => simp [wakeNth]
  | cons p rest ih =>
    cases p with
    | parked =>
      cases n with
      | zero => cases i <;> simp [wakeNth]
      | succ n => cases i <;> simp [wakeNth, ih]
    | woken => cases i <;> simp [wakeNth, ih]
    | done q => cases i <;> simp [wakeNth, ih]

theorem wakeNth_countP_done {T : Type} (pcs : List (Pc T)) (n : Nat) :
    (wakeNth pcs n).countP Pc.isDone = pcs.countP Pc.isDone := by
  induction pcs generalizing n with
  | nil => simp [wakeNth]
  | cons p rest ih =>
    cases p with
    | parked => cases n <;> simp [wakeNth, Pc.isDone, ih]
    | woken => simp [wakeNth, Pc.isDone, ih]
    | done q => simp [wakeNth, Pc.isDone, ih]

theorem wakeNth_woken_of_lt {T : Type} (pcs : List (Pc T)) (n : Nat)
    (h : n < countParked pcs) : (wakeNth pcs n).any Pc.isWoken = true := by
  induction pcs generalizing n with
  | nil => simp [countParked] at h
  | cons p rest ih =>
    cases p with
    | parked =>
      cases n with
      | zero => simp [wakeNth, Pc.isWoken]
      | succ n =>
        have h2 : n < countParked rest := by
          simpa [countParked, Pc.isParked] using h
        simp [wakeNth, Pc.isWoken, ih n h2]
    | woken => simp [wakeNth, Pc.isWoken]
    | done q =>
      have h2 : n < countParked rest := by
        simpa [countParked, Pc.isParked] using h
      simp [wakeNth, Pc.isWoken, ih n h2]

theorem wakeNth_of_none_parked {T : Type} (pcs : List (Pc T)) (n : Nat)
    (h : countParked pcs = 0) : wakeNth pcs n = pcs := by
  induction pcs generalizing n with
  | nil => simp [wakeNth]
  | cons p rest ih =>
    cases p with
    | parked => simp [countParked, Pc.isParked] at h
    | woken =>
      have h2 : countParked rest = 0 := by simpa [countParked, Pc.isParked] using h
      simp [wakeNth, ih n h2]
    | done q =>
      have h2 : countParked rest = 0 := by simpa [countParked, Pc.isParked] using h
      simp [wakeNth, ih n h2]

/-- After notify_one, a thread still parked means another one is woken. -/
theorem notify_one_parked_woken {T : Type} (pcs : List (Pc T)) (choice : Nat)
    (h : (notify_one pcs choice).any Pc.isParked = true) :
    (notify_one pcs choice).any Pc.isWoken = true := by
  unfold notify_one at *
  by_cases h0 : countParked pcs = 0
  · rw [wakeNth_of_none_parked pcs _ h0] at h
    have : 0 < countParked pcs := by
      unfold countParked
      rw [List.countP_pos_iff]
      simpa using h
    omega
  · exact wakeNth_woken_of_lt pcs _ (Nat.mod_lt _ (Nat.pos_of_ne_zero h0))

theorem signal_getElem_done {T : Type} (k choice : Nat) (pcs : List (Pc T)) (i : Nat)
    (r : Option T) :
    (signal k choice pcs)[i]? = some (.done r) ↔ pcs[i]? = some (.done r) := by
  induction k generalizing pcs with
  | zero => simp [signal]
  | succ k ih => simp [signal, ih, notify_one, wakeNth_getElem_done]

theorem signal_countP_done {T : Type} (k choice : Nat) (pcs : List (Pc T)) :
    (signal k choice pcs).countP Pc.isDone = pcs.countP Pc.isDone := by
  induction k generalizing pcs with
  | zero => simp [signal]
  | succ k ih => simp [signal, ih, notify_one, wakeNth_countP_done]

/-! ## Interleavings: one step -/

theorem Take_iter_value {T : Type} (self : AtomicObject T) :
    self.Take_iter.self.value_ = none := by
  rcases self with ⟨_ | w⟩ <;> simp [Take_iter]

theorem Take_iter_result {T : Type} (self : AtomicObject T) :
    self.Take_iter.result = if self.value_.isSome then some self.value_ else none := by
  rcases self with ⟨_ | w⟩ <;> simp [Take_iter]

theorem pcAfter_Take_iter_done {T : Type} (self : AtomicObject T) (r : Option T)
    (h : pcAfter self.Take_iter.result = .done r) :
    r = self.value_ ∧ self.value_.isSome = true := by
  rcases self with ⟨_ | w⟩
  · simp [Take_iter, pcAfter] at h
  · simp [Take_iter, pcAfter] at h
    simp [← h]

/-- A call of Take that has returned stays returned, with the same pointer. -/
theorem step_done_stable {T : Type} (s : Sys T) (e : Event T) (i : Nat) (r : Option T)
    (h : s.takers[i]? = some (.done r)) : (step s e).takers[i]? = some (.done r) := by
  have hi : i < s.takers.length := by
    rcases Nat.lt_or_ge i s.takers.length with h1 | h1
    · exact h1
    · rw [List.getElem?_eq_none h1] at h
      cases h
  cases e with
  | set t choice => simpa [step, release, signal_getElem_done] using h
  | setIfEmpty t choice => simpa [step, release, signal_getElem_done] using h
  | withLock action choice => simpa [step, release, signal_getElem_done] using h
  | take => simpa [step, List.getElem?_append_left hi] using h
  | wakeup j =>
    simp only [step]
    split
    · rename_i hj
      by_cases hij : j = i
      · subst hij
        rw [h] at hj
        cases hj
      · simpa [List.getElem?_set_ne hij] using h
    · exact h
  | recheck j =>
    simp only [step]
    split
    · rename_i hj
      by_cases hij : j = i
      · subst hij
        rw [h] at hj
        cases hj
      · simpa [List.getElem?_set_ne hij] using h
    · exact h

/-- A call of Take that returns in a step returns the pointer that value_ held,
which was non-null, and leaves value_ null. -/
theorem step_done_origin {T : Type} (s : Sys T) (e : Event T) (i : Nat) (r : Option T)
    (h : (step s e).takers[i]? = some (.done r)) :
    s.takers[i]? = some (.done r) ∨
      (r = s.obj.value_ ∧ s.obj.value_.isSome = true ∧ (step s e).obj.value_ = none) := by
  cases e with
  | set t choice => left; simpa [step, release, signal_getElem_done] using h
  | setIfEmpty t choice => left; simpa [step, release, signal_getElem_done] using h
  | withLock action choice => left; simpa [step, release, signal_getElem_done] using h
  | take =>
    simp only [step] at h ⊢
    rcases Nat.lt_or_ge i s.takers.length with hi | hi
    · left
      simpa [List.getElem?_append_left hi] using h
    · right
      rw [List.getElem?_append_right hi] at h
      have h2 : pcAfter s.obj.Take_iter.result = .done r := by
        cases hk : i - s.takers.length with
        | zero => simpa [hk] using h
        | succ k => simp [hk] at h
      exact ⟨(pcAfter_Take_iter_done _ _ h2).1, (pcAfter_Take_iter_done _ _ h2).2,
        Take_iter_value _⟩
  | wakeup j =>
    left
    simp only [step] at h
    split at h
    · by_cases hij : j = i
      · subst hij
        simp [List.getElem?_set] at h
      · simpa [List.getElem?_set_ne hij] using h
    · exact h
  | recheck j =>
    simp only [step] at h ⊢
    split at h
    · rename_i hj
      by_cases hij : j = i
      · subst hij
        right
        simp [List.getElem?_set] at h
        exact ⟨(pcAfter_Take_iter_done _ _ h.2).1, (pcAfter_Take_iter_done _ _ h.2).2,
          Take_iter_value _⟩
      · left
        simpa [List.getElem?_set_ne hij] using h
    · left
      exact h

/-- A value found in value_ after a step was there before or was stored by
the step. -/
theorem step_value_origin {T : Type} (s : Sys T) (e : Event T) (v : T)
    (h : (step s e).obj.value_ = some v) : s.obj.value_ = some v ∨ Puts s e v := by
  cases e with
  | set t choice => right; simpa [step, release, Set, Puts] using h
  | setIfEmpty t choice =>
    rcases s with ⟨⟨_ | w⟩, pcs⟩
    · right; simpa [step, release, SetIfEmpty, Puts] using h
    · left; simpa [step, release, SetIfEmpty] using h
  | withLock action choice => right; simpa [step, release, WithLock_self, Puts] using h
  | take => simp [step, Take_iter_value] at h
  | wakeup j =>
    left
    simp only [step] at h
    split at h
    · exact h
    · exact h
  | recheck j =>
    simp only [step] at h
    split at h
    · simp [Take_iter_value] at h
    · left; exact h

theorem run_cons {T : Type} (s : Sys T) (e : Event T) (es : List (Event T)) :
    run s (e :: es) = run (step s e) es := rfl

theorem run_done_stable {T : Type} (s : Sys T) (es : List (Event T)) (i : Nat) (r : Option T)
    (h : s.takers[i]? = some (.done r)) : (run s es).takers[i]? = some (.done r) := by
  induction es generalizing s with
  | nil => exact h
  | cons e es ih => exact ih (step s e) (step_done_stable s e i r h)

theorem returnedAt_false_iff {T : Type} (s : Sys T) (i : Nat) :
    returnedAt s i = false ↔ ∀ r, s.takers[i]? ≠ some (.done r) := by
  unfold returnedAt
  split
  · rename_i r h
    simp [h]
  · rename_i h
    simp only [true_iff]
    intro r hr
    exact h r hr

theorem returnedAt_true_iff {T : Type} (s : Sys T) (i : Nat) :
    returnedAt s i = true ↔ ∃ r, s.takers[i]? = some (.done r) := by
  unfold returnedAt
  split
  · rename_i r h
    simp [h]
  · rename_i h
    simp only [false_iff, Bool.false_eq_true]
    rintro ⟨r, hr⟩
    exact h r hr

/-! ## Interleavings: Take waits for a value -/

theorem step_not_returned_of_empty {T : Type} (s : Sys T) (e : Event T) (i : Nat)
    (hv : s.obj.value_ = none) (h : returnedAt s i = false) :
    returnedAt (step s e) i = false := by
  rw [returnedAt_false_iff] at h ⊢
  intro r hr
  rcases step_done_origin s e i r hr with h1 | ⟨_, h2, _⟩
  · exact h r h1
  · simp [hv] at h2

theorem run_not_returned_while_empty {T : Type} (s : Sys T) (es : List (Event T)) (i : Nat)
    (h : returnedAt s i = false)
    (hk : ∀ k, k < es.length → (run s (es.take k)).obj.value_ = none) :
    returnedAt (run s es) i = false := by
  induction es generalizing s with
  | nil => exact h
  | cons e es ih =>
    have h0 : s.obj.value_ = none := by
      have := hk 0 (by simp)
      simpa [run] using this
    rw [run_cons]
    apply ih (step s e) (step_not_returned_of_empty s e i h0 h)
    intro k hlt
    have := hk (k + 1) (by simpa using hlt)
    simpa [run_cons] using this

/-- A pointer returned by Take was in value_ at the start or was stored by an
earlier step of the schedule, taken while the call had not yet returned. -/
theorem run_done_origin {T : Type} (s : Sys T) (es : List (Event T)) (i : Nat) (v : T)
    (h : returnedAt s i = false)
    (hd : (run s es).takers[i]? = some (.done (some v))) :
    s.obj.value_ = some v ∨
      ∃ pre e post, es = pre ++ e :: post ∧ Puts (run s pre) e v ∧
        returnedAt (run s pre) i = false := by
  induction es generalizing s with
  | nil =>
    rw [returnedAt_false_iff] at h
    exact absurd hd (h _)
  | cons e es ih =>
    rw [run_cons] at hd
    cases hs1 : returnedAt (step s e) i with
    | true =>
      left
      obtain ⟨r, hr⟩ := (returnedAt_true_iff _ _).1 hs1
      have hfin := run_done_stable (step s e) es i r hr
      rw [hd] at hfin
      have hrv : r = some v := by
        simp at hfin
        exact hfin.symm
      subst hrv
      rcases step_done_origin s e i _ hr with h1 | ⟨h1, _, _⟩
      · rw [returnedAt_false_iff] at h
        exact absurd h1 (h _)
      · exact h1.symm
    | false =>
      rcases ih (step s e) hs1 hd with h1 | ⟨pre, e2, post, hes, hp, hr⟩
      · rcases step_value_origin s e v h1 with h2 | h2
        · left; exact h2
        · right
          exact ⟨[], e, es, rfl, h2, h⟩
      · right
        exact ⟨e :: pre, e2, post, by simp [hes], by simpa [run_cons] using hp,
          by simpa [run_cons] using hr⟩

/-- C8. With one critical section per step: a Take that starts on an empty
object parks; a woken call that tests an empty object parks again and leaves
the object as it was, and a wake-up by itself does not touch the object; a call
that has not returned does not return as long as value_ is null before each
step; and when a call that had not returned at a state with a null value_ ends
up returning v, the schedule contains an earlier step, taken while the call had
not yet returned, that stored v: a Set(v), a SetIfEmpty(v) on an empty object,
or a WithLock whose action left v in value_. -/
theorem Take_returns_only_after_deposit {T : Type} :
    (∀ s : Sys T, s.obj.value_ = none →
      step s .take = { obj := s.obj, takers := s.takers ++ [.parked] }) ∧
    (∀ (s : Sys T) (i : Nat), s.obj.value_ = none → s.takers[i]? = some .woken →
      step s (.recheck i) = { obj := s.obj, takers := s.takers.set i .parked }) ∧
    (∀ (s : Sys T) (i : Nat), (step s (.wakeup i)).obj = s.obj) ∧
    (∀ (s : Sys T) (es : List (Event T)) (i : Nat), returnedAt s i = false →
      (∀ k, k < es.length → (run s (es.take k)).obj.value_ = none) →
      returnedAt (run s es) i = false) ∧
    (∀ (s : Sys T) (es : List (Event T)) (i : Nat) (v : T),
      s.obj.value_ = none → returnedAt s i = false →
      (run s es).takers[i]? = some (.done (some v)) →
      ∃ pre e post, es = pre ++ e :: post ∧ Puts (run s pre) e v ∧
        returnedAt (run s pre) i = false) := by
  refine ⟨?_, ?_, ?_, run_not_returned_while_empty, ?_⟩
  · rintro ⟨⟨val⟩, pcs⟩ hv
    simp only at hv
    subst hv
    simp [step, Take_iter, pcAfter]
  · rintro ⟨⟨val⟩, pcs⟩ i hv hw
    simp only at hv hw
    subst hv
    simp [step, hw, Take_iter, pcAfter]
  · intro s i
    simp only [step]
    split <;> rfl
  · intro s es i v hv h hd
    rcases run_done_origin s es i v h hd with h1 | h1
    · rw [hv] at h1
      cases h1
    · exact h1

/-- Instance of C8: a Take on the fresh object parks, Set(7) wakes it, its
second test returns 7; the step that stored 7 comes before the return. -/
theorem Take_returns_only_after_deposit_witness :
    ∃ pre e post,
      ([.take, .set (some 7) 0, .recheck 0] : List (Event Nat)) = pre ++ e :: post ∧
      Puts (run init pre) e 7 ∧ returnedAt (run init pre) 0 = false :=
  (@Take_returns_only_after_deposit Nat).2.2.2.2 init
    [.take, .set (some 7) 0, .recheck 0] 0 7 rfl rfl (by decide)

/-! ## Interleavings: no duplication -/

theorem countP_set_of_getElem {T : Type} (p : Pc T → Bool) (l : List (Pc T)) (j : Nat)
    (a x : Pc T) (h : l[j]? = some a) :
    (l.set j x).countP p + (if p a then 1 else 0) = l.countP p + (if p x then 1 else 0) := by
  induction l generalizing j with
  | nil => simp at h
  | cons b rest ih =>
    cases j with
    | zero =>
      simp at h
      subst h
      simp only [List.set_cons_zero, List.countP_cons]
      omega
    | succ j =>
      simp at h
      have := ih j h
      simp only [List.set_cons_succ, List.countP_cons]
      omega

theorem any_set_of_getElem {T : Type} (p : Pc T → Bool) (l : List (Pc T)) (j : Nat)
    (a x : Pc T) (h : l[j]? = some a) (hx : p x = true) : (l.set j x).any p = true := by
  induction l generalizing j with
  | nil => simp at h
  | cons b rest ih =>
    cases j with
    | zero => simp [hx]
    | succ j =>
      simp at h
      simp [ih j h]

/-- A step lets at most one call of Take return, and a step in which one
returns found value_ non-null and leaves it null. -/
theorem step_returned {T : Type} (s : Sys T) (e : Event T) :
    returned (step s e) = returned s ∨
      (returned (step s e) = returned s + 1 ∧ s.obj.value_.isSome = true ∧
        (step s e).obj.value_ = none) := by
  cases e with
  | set t choice => left; simp [returned, step, release, signal_countP_done]
  | setIfEmpty t choice => left; simp [returned, step, release, signal_countP_done]
  | withLock action choice => left; simp [returned, step, release, signal_countP_done]
  | take =>
    rcases s with ⟨⟨_ | w⟩, pcs⟩
    · left; simp [returned, step, Take_iter, pcAfter, Pc.isDone]
    · right; simp [returned, step, Take_iter, pcAfter, Pc.isDone]
  | wakeup j =>
    left
    simp only [step]
    split
    · rename_i hj
      have := countP_set_of_getElem Pc.isDone s.takers j _ .woken hj
      simp [Pc.isDone] at this
      simpa [returned] using this
    · rfl
  | recheck j =>
    simp only [step]
    split
    · rename_i hj
      have := countP_set_of_getElem Pc.isDone s.takers j _ (pcAfter s.obj.Take_iter.result) hj
      rcases s with ⟨⟨_ | w⟩, pcs⟩
      · left
        simp [Pc.isDone, Take_iter, pcAfter] at this
        simpa [returned, Take_iter, pcAfter] using this
      · right
        simp [Pc.isDone, Take_iter, pcAfter] at this
        simpa [returned, Take_iter, pcAfter] using this
    · left; rfl

theorem step_returned_occupied {T : Type} (s : Sys T) (e : Event T) :
    returned (step s e) + occupied (step s e)
      ≤ returned s + occupied s + (if fills s e then 1 else 0) := by
  have hocc : occupied (step s e) ≤ occupied s + (if fills s e then 1 else 0) := by
    unfold occupied fills
    cases s.obj.value_.isSome <;> cases (step s e).obj.value_.isSome <;> simp
  rcases step_returned s e with h | ⟨h1, h2, h3⟩
  · omega
  · have : occupied s = 1 := by simp [occupied, h2]
    have : occupied (step s e) = 0 := by simp [occupied, h3]
    omega

theorem fills_places {T : Type} (s : Sys T) (e : Event T) (h : fills s e = true) :
    places s e = true := by
  rcases s with ⟨⟨_ | w⟩, pcs⟩
  · cases e with
    | set t choice => simpa [fills, places, step, release, Set] using h
    | setIfEmpty t choice => simpa [fills, places, step, release, SetIfEmpty] using h
    | withLock action choice => simpa [fills, places, step, release, WithLock_self] using h
    | take => simp [fills, step, Take_iter] at h
    | wakeup j =>
      simp only [fills, step] at h
      split at h <;> simp at h
    | recheck j =>
      simp only [fills, step] at h
      split at h <;> simp [Take_iter] at h
  · simp [fills] at h

theorem run_returned_occupied {T : Type} (s : Sys T) (es : List (Event T)) :
    returned (run s es) + occupied (run s es) ≤ returned s + occupied s + filled s es := by
  induction es generalizing s with
  | nil => simp [run, filled]
  | cons e es ih =>
    have h1 := ih (step s e)
    have h2 := step_returned_occupied s e
    rw [run_cons]
    simp only [filled]
    omega

theorem filled_le_placed {T : Type} (s : Sys T) (es : List (Event T)) :
    filled s es ≤ placed s es := by
  induction es generalizing s with
  | nil => simp [filled, placed]
  | cons e es ih =>
    have h1 := ih (step s e)
    simp only [filled, placed]
    cases hf : fills s e with
    | true => simp [fills_places s e hf, h1]
    | false =>
      simp only [Bool.false_eq_true, if_false]
      split <;> omega

/-- C9. In every interleaving from the fresh (empty) object: the calls of Take
that have returned, plus one if value_ is non-null, never outnumber the steps
that filled an empty value_, hence never the steps that stored a value; a step
lets at most one call return, and does so only from a non-null value_, which it
leaves null; and the call that returns in a step gets the very pointer value_
held. -/
theorem Take_no_duplication {T : Type} :
    (∀ es : List (Event T),
      returned (run init es) + occupied (run init es) ≤ filled init es ∧
      filled init es ≤ placed init es ∧
      returned (run init es) ≤ placed init es) ∧
    (∀ (s : Sys T) (e : Event T),
      returned (step s e) = returned s ∨
        (returned (step s e) = returned s + 1 ∧ s.obj.value_.isSome = true ∧
          (step s e).obj.value_ = none)) ∧
    (∀ (s : Sys T) (e : Event T) (i : Nat) (r : Option T),
      returnedAt s i = false → (step s e).takers[i]? = some (.done r) →
      r = s.obj.value_ ∧ s.obj.value_.isSome = true ∧ (step s e).obj.value_ = none) := by
  refine ⟨?_, step_returned, ?_⟩
  · intro es
    have h1 := run_returned_occupied init es
    have h2 := filled_le_placed init es
    have h3 : returned (init : Sys T) = 0 := rfl
    have h4 : occupied (init : Sys T) = 0 := rfl
    omega
  · intro s e i r h hd
    rcases step_done_origin s e i r hd with h1 | h1
    · rw [returnedAt_false_iff] at h
      exact absurd h1 (h r)
    · exact h1

/-- Instance of C9: after Set(3), a second Take started while the first one is
parked returns 3 in its step and leaves value_ null. -/
theorem Take_no_duplication_witness :
    some 3 = (run init [.take, .set (some 3) 0] : Sys Nat).obj.value_ ∧
    (run init [.take, .set (some 3) 0] : Sys Nat).obj.value_.isSome = true ∧
    (step (run init [.take, .set (some 3) 0] : Sys Nat) .take).obj.value_ = none :=
  (@Take_no_duplication Nat).2.2 (run init [.take, .set (some 3) 0]) .take 1 (some 3)
    (by decide) (by decide)

/-! ## Interleavings: no lost wake-up -/

theorem NoLostWakeup_step {T : Type} (s : Sys T) (e : Event T) (h : NoLostWakeup s)
    (hq : throwsAfterFilling s e = false) : NoLostWakeup (step s e) := by
  cases e with
  | set t choice =>
    intro _ hp
    simp only [step, release, Set, signal] at hp ⊢
    exact notify_one_parked_woken _ _ hp
  | setIfEmpty t choice =>
    rcases s with ⟨⟨_ | w⟩, pcs⟩
    · intro _ hp
      simp [step, release, SetIfEmpty, signal] at hp ⊢
      simpa using notify_one_parked_woken pcs choice (by simpa using hp)
    · simpa [step, release, SetIfEmpty, signal] using h
  | withLock action choice =>
    cases hx : (action s.obj.value_).2 with
    | threw =>
      intro hv hp
      simp only [step, release, WithLock_self, WithLock_notified_threw _ _ hx, signal]
        at hv hp ⊢
      have hs : s.obj.value_.isSome = true := by
        simp only [throwsAfterFilling, hx, hv] at hq
        simpa using hq
      exact h hs hp
    | returned =>
      by_cases hc : s.obj.value_.isSome = (action s.obj.value_).1.isSome
      · intro hv hp
        simp [step, release, WithLock_self, WithLock_notified_returned _ _ hx, signal, hc]
          at hv hp ⊢
        have := h (by rw [hc]; exact hv) (by simpa using hp)
        simpa using this
      · intro _ hp
        simp [step, release, WithLock_self, WithLock_notified_returned _ _ hx, signal, hc]
          at hp ⊢
        simpa using notify_one_parked_woken s.takers choice (by simpa using hp)
  | take =>
    intro hv
    simp [step, Take_iter_value] at hv
  | wakeup j =>
    simp only [step]
    split
    · rename_i hj
      intro _ _
      exact any_set_of_getElem Pc.isWoken s.takers j _ .woken hj rfl
    · exact h
  | recheck j =>
    simp only [step]
    split
    · intro hv
      simp [Take_iter_value] at hv
    · exact h

theorem NoLostWakeup_run {T : Type} (s : Sys T) (es : List (Event T)) (h : NoLostWakeup s)
    (hq : noThrowAfterFilling s es = true) : NoLostWakeup (run s es) := by
  induction es generalizing s with
  | nil => exact h
  | cons e es ih =>
    simp only [noThrowAfterFilling, Bool.and_eq_true, Bool.not_eq_eq_eq_not, Bool.not_true] at hq
    exact ih (step s e) (NoLostWakeup_step s e h hq.1) hq.2

/-- C10, the claim as written fails: a call of Take parks on the fresh object,
then a WithLock action stores 5 and throws. No notify_one runs, so value_ is
non-null, the only call of Take is parked and none is woken. -/
theorem lost_wakeup_after_throw :
    (run init [.take, .withLock (fun _ => (some 5, .threw)) 0] : Sys Nat).obj.value_.isSome
      = true ∧
    (run init [.take, .withLock (fun _ => (some 5, .threw)) 0] : Sys Nat).takers.any
      Pc.isParked = true ∧
    (run init [.take, .withLock (fun _ => (some 5, .threw)) 0] : Sys Nat).takers.any
      Pc.isWoken = false := by
  decide

/-- C10 as amended. With notify_one unblocking exactly one parked call when
there is one and doing nothing otherwise, every state reached from the fresh
object by a schedule of Set, SetIfEmpty, WithLock, Take, spurious wake-ups and
re-tests in which no WithLock action throws after storing a value in an empty
object satisfies: if value_ is non-null and some call of Take is parked, then
some call is woken and has not yet tested value_ again. -/
theorem no_lost_wakeup {T : Type} (es : List (Event T))
    (hq : noThrowAfterFilling init es = true)
    (hv : (run init es).obj.value_.isSome = true)
    (hp : (run init es).takers.any Pc.isParked = true) :
    (run init es).takers.any Pc.isWoken = true :=
  NoLostWakeup_run init es (fun h _ => by simp [init] at h) hq hv hp

/-- Instance of C10: two calls park, Set(1) wakes the second, then SetIfEmpty,
a value-replacing WithLock and a WithLock whose action throws on the occupied
object raise no signal; the first call is still parked with value_ non-null,
and the second is woken. -/
theorem no_lost_wakeup_witness :
    (run init [.take, .take, .set (some 1) 1, .setIfEmpty (some 2) 0,
      .withLock (fun _ => (some 3, .returned)) 0,
      .withLock (fun _ => (some 4, .threw)) 0] : Sys Nat).takers.any Pc.isWoken = true :=
  no_lost_wakeup [.take, .take, .set (some 1) 1, .setIfEmpty (some 2) 0,
    .withLock (fun _ => (some 3, .returned)) 0,
    .withLock (fun _ => (some 4, .threw)) 0] (by decide) (by decide) (by decide)

end AtomicObject
